import Mathlib

/-!
Shallow embedding of `examplens` (src/main.rs): a minimal DNS nameserver
that synthesizes SOA/A record sets for statically configured zones,
registers them in a catalog together with a root forwarding authority,
and routes queries by longest-suffix match.

Modelling conventions:
* A DNS name is its list of labels, leftmost (most specific) label first;
  the root name is `[]`.  Case normalization is abstracted away (labels are
  compared structurally), and label characters are abstracted: only the
  length constraints enforced by `Name::from_utf8` / `Name::parse`
  (labels of 1..63 bytes, encoded name length at most 255 bytes) are kept,
  since those are the constraints the program can trip over.
* `BTreeMap` values are modelled as association lists with an
  insert-or-replace operation (`insertA`); key order is irrelevant to every
  lookup-level statement proved here.
* Fallible operations return `Option`; `none` models either an error return
  or a panic (`unwrap`), as noted at each definition.
* External collaborators (the YAML reader, `read_system_conf`, the
  forwarder's construction, socket binding) are modelled as parameters or
  boolean outcomes; their internals are out of scope.
-/

namespace ExampleNS

/-- A DNS label, modelled by its textual content. -/
abbrev Label := String

/-- A domain name: its labels, leftmost (most specific) first; the root
name is `[]`. -/
abbrev DName := List Label

/-- Validity of one label under trust-dns name parsing: nonempty and at
most 63 bytes. -/
def labelValid (l : Label) : Bool :=
  decide (0 < l.length) && decide (l.length ≤ 63)

/-- Encoded (wire) length in bytes of a name: one length byte plus the
content for each label, plus the terminating root byte. -/
def encodedLen (n : DName) : Nat :=
  (n.map (fun l => l.length + 1)).sum + 1

/-- Validity of a whole name under trust-dns parsing (`Name::from_utf8` /
`Name::parse`): every label valid and encoded length at most 255. -/
def nameValid (n : DName) : Bool :=
  n.all labelValid && decide (encodedLen n ≤ 255)

/-- Model of `Name::from_utf8` at label granularity: succeeds exactly on
valid names, returning the name unchanged. -/
def fromLabels (n : DName) : Option DName :=
  if nameValid n then some n else none

/-- An IPv4 address, as its four octets. -/
structure Ipv4 where
  oct1 : Nat
  oct2 : Nat
  oct3 : Nat
  oct4 : Nat
deriving DecidableEq

/-- The record types this program synthesizes. -/
inductive RecordType
  | A
  | SOA
deriving DecidableEq

/-- The payload of an SOA record (`trust_dns rdata::SOA`). -/
structure SOAData where
  mname : DName
  rname : DName
  serial : Nat
  refresh : Nat
  retry : Nat
  expire : Nat
  minimum : Nat
deriving DecidableEq

/-- Record data: either an A address or SOA metadata. -/
inductive RData
  | A (addr : Ipv4)
  | SOA (soa : SOAData)
deriving DecidableEq

/-- One DNS resource record (`trust_dns Record`). -/
structure DNSRecord where
  name : DName
  rtype : RecordType
  ttl : Nat
  rdata : Option RData
deriving DecidableEq

/-- A record set (`trust_dns RecordSet`): owner name, type, ttl, and the
records it holds. -/
structure RecordSet where
  name : DName
  rtype : RecordType
  ttl : Nat
  records : List DNSRecord
deriving DecidableEq

/-- `RecordSet::new(name, record_type, ttl)`: an empty set. -/
def RecordSet.new (name : DName) (rtype : RecordType) (ttl : Nat) : RecordSet :=
  { name := name, rtype := rtype, ttl := ttl, records := [] }

/-- `RecordSet::insert(record, serial)` restricted to how this program uses
it: an SOA record replaces any existing records (a set holds at most one
SOA); any other record is appended unless already present.  The serial
argument is irrelevant to the synthesized content and is dropped. -/
def RecordSet.insertRec (rs : RecordSet) (r : DNSRecord) : RecordSet :=
  if r.rtype = RecordType.SOA then { rs with records := [r] }
  else if r ∈ rs.records then rs
  else { rs with records := rs.records ++ [r] }

/-- `generate_a` (main.rs lines 66-78): one A record set at `name` with
ttl 30 holding the single address. -/
def generate_a (name : DName) (address : Ipv4) : RecordSet :=
  let v4rs := RecordSet.new name RecordType.A 30
  let r : DNSRecord :=
    { name := name, rtype := RecordType.A, ttl := 30,
      rdata := some (RData.A address) }
  v4rs.insertRec r

/-- The administrative contact name `administrator.<apex>` built on
main.rs line 92 via `format!` and `Name::from_utf8`; `none` models the
parse failure that the source `unwrap`s. -/
def administrator (domain : DName) : Option DName :=
  fromLabels ("administrator" :: domain)

/-- `generate_soa` (main.rs lines 80-103): one SOA record set at `domain`
with ttl 30 and the fixed parameters serial=1, refresh=60, retry=1,
expire=120, minimum=30; `none` models the panic of the `unwrap` on the
administrative contact name. -/
def generate_soa (domain : DName) : Option RecordSet :=
  match administrator domain with
  | none => none
  | some admin =>
    let rs := RecordSet.new domain RecordType.SOA 30
    let r : DNSRecord :=
      { name := domain, rtype := RecordType.SOA, ttl := 30,
        rdata := some (RData.SOA
          { mname := domain, rname := admin, serial := 1, refresh := 60,
            retry := 1, expire := 120, minimum := 30 }) }
    some (rs.insertRec r)

/-- Insert-or-replace into an association list: the model of
`BTreeMap::insert` and of `Catalog::upsert` (key order is irrelevant to
all lookups proved about it). -/
def insertA {α β : Type} [DecidableEq α] (k : α) (v : β) :
    List (α × β) → List (α × β)
  | [] => [(k, v)]
  | (k', v') :: t => if k = k' then (k, v) :: t else (k', v') :: insertA k v t

/-- Key lookup in an association list: the model of `BTreeMap::get` /
`HashMap::get`. -/
def lookupA {α β : Type} [DecidableEq α] (k : α) :
    List (α × β) → Option β
  | [] => none
  | (k', v') :: t => if k = k' then some v' else lookupA k t

/-- `RrKey`: owner name plus record type, the key of a zone's record map. -/
structure RrKey where
  name : DName
  rtype : RecordType
deriving DecidableEq

/-- The body of the per-entry loop of `generate_catalog` (main.rs lines
110-122), iterated over the zone's entries: each iteration inserts the
apex SOA record set (under the key `(apex, SOA)`) and then the entry's A
record set (under `(name, A)`).  `none` propagates the `generate_soa`
panic.  Note the SOA insertion happens only inside this loop, so a zone
with no entries gets no SOA. -/
def zoneFold (domain : DName) :
    List (RrKey × RecordSet) → List (DName × Ipv4) →
    Option (List (RrKey × RecordSet))
  | rc, [] => some rc
  | rc, (name, addr) :: rest =>
    match generate_soa domain with
    | none => none
    | some soa =>
      zoneFold domain
        (insertA (RrKey.mk name (generate_a name addr).rtype)
          (generate_a name addr)
          (insertA (RrKey.mk domain RecordType.SOA) soa rc)) rest

/-- The record map `rc` built for one zone by `generate_catalog`. -/
def zoneRecords (domain : DName) (recs : List (DName × Ipv4)) :
    Option (List (RrKey × RecordSet)) :=
  zoneFold domain [] recs

/-- The forwarder configuration assembled from `read_system_conf` (an
external collaborator): the upstream name-server addresses.  Resolver
options are irrelevant to every claim and elided. -/
structure ForwardConfig where
  nameServers : List Ipv4
deriving DecidableEq

/-- An authority in the catalog: a primary in-memory zone
(`InMemoryAuthority` with its origin and record map) or the forwarder
(`ForwardAuthority`).  `InMemoryAuthority::new` and
`ForwardAuthority::try_from_config` are library constructors that succeed
on every input this program hands them; their `unwrap`/`expect` is not in
any claim and they are modelled as total. -/
inductive Authority
  | Primary (origin : DName) (records : List (RrKey × RecordSet))
  | Forward (config : ForwardConfig)
deriving DecidableEq

/-- The catalog: domain-name keys mapped to authorities
(`trust_dns Catalog`, a map under `upsert`). -/
abbrev Catalog := List (DName × Authority)

/-- The zone-registration loop of `generate_catalog` (main.rs lines
108-133): for each configured `(domain, recs)` build the record map and
upsert a primary authority keyed by the apex. -/
def catFold : Catalog → List (DName × List (DName × Ipv4)) → Option Catalog
  | cat, [] => some cat
  | cat, (domain, recs) :: rest =>
    match zoneRecords domain recs with
    | none => none
    | some rc => catFold (insertA domain (Authority.Primary domain rc) cat) rest

/-- `generate_catalog` (main.rs lines 105-158): register every configured
zone, then upsert the forwarder at the root name.  The forwarder
configuration `fc` stands for the data read from the system resolver
configuration. -/
def generate_catalog (records : List (DName × List (DName × Ipv4)))
    (fc : ForwardConfig) : Option Catalog :=
  match catFold [] records with
  | none => none
  | some cat => some (insertA [] (Authority.Forward fc) cat)

/-- `Catalog::find`: exact lookup of the query name, else retry on the
name with its leftmost label removed, down to the root.  This is the
longest-suffix dispatch the server uses for every query. -/
def findA (cat : Catalog) : DName → Option Authority
  | [] => lookupA [] cat
  | l :: rest =>
    match lookupA (l :: rest) cat with
    | some auth => some auth
    | none => findA cat rest

/-- The `Records` map as deserialized from the configuration document:
serde feeds each `(apex, entries)` pair of the document into
`BTreeMap::insert`, so a repeated apex silently replaces the earlier
entry (the last occurrence wins) — no error is raised. -/
def recordsFromPairs (ps : List (DName × List (DName × Ipv4))) :
    List (DName × List (DName × Ipv4)) :=
  ps.foldl (fun m p => insertA p.1 p.2 m) []

/-- The externally visible startup steps of `main` (main.rs lines
160-179), in program order. -/
inductive Ev
  | openConfig
  | parseConfig
  | bindTcp
  | bindUdp
  | buildCatalog
  | registerUdp
  | registerTcp
  | serve
deriving DecidableEq

/-- The trace of startup events of `main`: each boolean is the outcome of
the corresponding fallible step (file open, YAML parse, TCP bind, UDP
bind, catalog construction); a failed step aborts startup via `?` (or a
panic), so nothing after it is executed.  The source binds both sockets
before calling `generate_catalog`. -/
def mainTrace (openOk parseOk tcpOk udpOk catOk : Bool) : List Ev :=
  if openOk = false then [] else
  Ev.openConfig ::
  (if parseOk = false then [] else
   Ev.parseConfig ::
   (if tcpOk = false then [] else
    Ev.bindTcp ::
    (if udpOk = false then [] else
     Ev.bindUdp ::
     (if catOk = false then [] else
      [Ev.buildCatalog, Ev.registerUdp, Ev.registerTcp, Ev.serve]))))

/-- The SOA-typed entries of a zone's record map. -/
def soaFilter (rc : List (RrKey × RecordSet)) : List (RrKey × RecordSet) :=
  rc.filter (fun p => decide (p.1.rtype = RecordType.SOA))

/-- How many SOA record sets the zone registered at `d` holds. -/
def zoneSOACount (cat : Catalog) (d : DName) : Nat :=
  match lookupA d cat with
  | some (Authority.Primary _ rc) => (soaFilter rc).length
  | _ => 0

/-- The record sets a catalog holds at owner name `n`: the record sets of
the dispatched authority whose key name is `n` (the forwarder holds no
local record sets). -/
def recordSetsAt (cat : Catalog) (n : DName) : List RecordSet :=
  match findA cat n with
  | some (Authority.Primary _ rc) =>
      (rc.filter (fun p => decide (p.1.name = n))).map Prod.snd
  | _ => []

/-! ## Basic laws of the association-list operations -/

theorem lookupA_insertA_self {α β : Type} [DecidableEq α] (k : α) (v : β)
    (m : List (α × β)) : lookupA k (insertA k v m) = some v := by
  induction m with
  | nil => simp [insertA, lookupA]
  | cons p t ih =>
    obtain ⟨k', v'⟩ := p
    by_cases h : k = k'
    · simp [insertA, lookupA, h]
    · simp [insertA, lookupA, h, ih]

theorem lookupA_insertA_ne {α β : Type} [DecidableEq α] {k k' : α} (v : β)
    (m : List (α × β)) (h : k ≠ k') :
    lookupA k (insertA k' v m) = lookupA k m := by
  induction m with
  | nil => simp [insertA, lookupA, h]
  | cons p t ih =>
    obtain ⟨k'', v''⟩ := p
    by_cases h2 : k' = k''
    · subst h2
      simp [insertA, lookupA, h]
    · by_cases h3 : k = k''
      · simp [insertA, lookupA, h2, h3]
      · simp [insertA, lookupA, h2, h3, ih]

theorem mem_keys_insertA {α β : Type} [DecidableEq α] {a k : α} (v : β)
    (m : List (α × β)) :
    a ∈ (insertA k v m).map Prod.fst ↔ a = k ∨ a ∈ m.map Prod.fst := by
  induction m with
  | nil => simp [insertA]
  | cons p t ih =>
    obtain ⟨k', v'⟩ := p
    by_cases h : k = k'
    · subst h
      simp [insertA]
    · simp only [insertA, if_neg h, List.map_cons, List.mem_cons, ih]
      tauto

theorem nodup_keys_insertA {α β : Type} [DecidableEq α] (k : α) (v : β)
    (m : List (α × β)) (h : (m.map Prod.fst).Nodup) :
    ((insertA k v m).map Prod.fst).Nodup := by
  induction m with
  | nil => simp [insertA]
  | cons p t ih =>
    obtain ⟨k', v'⟩ := p
    simp only [List.map_cons, List.nodup_cons] at h
    by_cases h2 : k = k'
    · subst h2
      simpa [insertA] using h
    · simp only [insertA, if_neg h2, List.map_cons, List.nodup_cons]
      refine ⟨fun hmem => ?_, ih h.2⟩
      rcases (mem_keys_insertA v t).mp hmem with h3 | h3
      · exact h2 (h3.symm)
      · exact h.1 h3

theorem insertA_insertA_same {α β : Type} [DecidableEq α] (k : α) (v w : β)
    (m : List (α × β)) : insertA k w (insertA k v m) = insertA k w m := by
  induction m with
  | nil => simp [insertA]
  | cons p t ih =>
    obtain ⟨k', v'⟩ := p
    by_cases h : k = k'
    · subst h
      simp [insertA]
    · simp [insertA, h, ih]

/-! ## Shape of the synthesized record sets -/

theorem generate_a_eq (n : DName) (a : Ipv4) :
    generate_a n a =
      { name := n, rtype := RecordType.A, ttl := 30,
        records := [{ name := n, rtype := RecordType.A, ttl := 30,
                      rdata := some (RData.A a) }] } := by
  simp [generate_a, RecordSet.new, RecordSet.insertRec]

theorem generate_a_rtype (n : DName) (a : Ipv4) :
    (generate_a n a).rtype = RecordType.A := by
  rw [generate_a_eq]

theorem administrator_eq (domain : DName)
    (h : nameValid ("administrator" :: domain) = true) :
    administrator domain = some ("administrator" :: domain) := by
  simp [administrator, fromLabels, h]

theorem generate_soa_eq (domain : DName) (rs : RecordSet)
    (h : generate_soa domain = some rs) :
    rs = { name := domain, rtype := RecordType.SOA, ttl := 30,
           records := [{ name := domain, rtype := RecordType.SOA, ttl := 30,
                         rdata := some (RData.SOA
                           { mname := domain,
                             rname := "administrator" :: domain,
                             serial := 1, refresh := 60, retry := 1,
                             expire := 120, minimum := 30 }) }] } := by
  unfold generate_soa administrator fromLabels at h
  by_cases hv : nameValid ("administrator" :: domain) = true
  · simp only [hv, if_true] at h
    simp only [RecordSet.new, RecordSet.insertRec, if_pos rfl] at h
    exact (Option.some.injEq _ _ ▸ h).symm
  · simp only [Bool.not_eq_true] at hv
    simp [hv] at h

/-! ## The SOA-typed part of a zone's record map -/

theorem soaFilter_insertA_notSOA (k : RrKey) (v : RecordSet)
    (m : List (RrKey × RecordSet)) (hk : ¬ k.rtype = RecordType.SOA) :
    soaFilter (insertA k v m) = soaFilter m := by
  simp only [soaFilter]
  induction m with
  | nil => simp [insertA, hk]
  | cons p t ih =>
    obtain ⟨k', v'⟩ := p
    by_cases h : k = k'
    · subst h
      rw [insertA, if_pos rfl,
        List.filter_cons_of_neg (by simpa using hk),
        List.filter_cons_of_neg (by simpa using hk)]
    · rw [insertA, if_neg h]
      by_cases h2 : k'.rtype = RecordType.SOA
      · rw [List.filter_cons_of_pos (by simpa using h2),
          List.filter_cons_of_pos (by simpa using h2), ih]
      · rw [List.filter_cons_of_neg (by simpa using h2),
          List.filter_cons_of_neg (by simpa using h2), ih]

theorem soaFilter_insertA_soa_empty (k : RrKey) (v : RecordSet)
    (m : List (RrKey × RecordSet)) (hk : k.rtype = RecordType.SOA)
    (hm : soaFilter m = []) :
    soaFilter (insertA k v m) = [(k, v)] := by
  simp only [soaFilter] at hm ⊢
  induction m with
  | nil => simp [insertA, hk]
  | cons p t ih =>
    obtain ⟨k', v'⟩ := p
    by_cases h2 : k'.rtype = RecordType.SOA
    · rw [List.filter_cons_of_pos (by simpa using h2)] at hm
      exact absurd hm (List.cons_ne_nil _ _)
    · rw [List.filter_cons_of_neg (by simpa using h2)] at hm
      have hne : k ≠ k' := fun heq => h2 (heq ▸ hk)
      rw [insertA, if_neg hne,
        List.filter_cons_of_neg (by simpa using h2)]
      exact ih hm

theorem soaFilter_insertA_soa_one (k : RrKey) (v v0 : RecordSet)
    (m : List (RrKey × RecordSet)) (hk : k.rtype = RecordType.SOA)
    (hm : soaFilter m = [(k, v0)]) :
    soaFilter (insertA k v m) = [(k, v)] := by
  simp only [soaFilter] at hm ⊢
  induction m with
  | nil => simp at hm
  | cons p t ih =>
    obtain ⟨k', v'⟩ := p
    by_cases h2 : k'.rtype = RecordType.SOA
    · rw [List.filter_cons_of_pos (by simpa using h2)] at hm
      simp only [List.cons.injEq, Prod.mk.injEq] at hm
      obtain ⟨⟨h5, h6⟩, ht⟩ := hm
      subst h5
      rw [insertA, if_pos rfl,
        List.filter_cons_of_pos (by simpa using hk), ht]
    · rw [List.filter_cons_of_neg (by simpa using h2)] at hm
      have hne : k ≠ k' := fun heq => h2 (heq ▸ hk)
      rw [insertA, if_neg hne,
        List.filter_cons_of_neg (by simpa using h2)]
      exact ih hm

/-! ## Laws of the per-zone record-map construction -/

theorem rrkey_A_ne_SOA (n domain : DName) :
    RrKey.mk n (generate_a n₀ a₀).rtype ≠ RrKey.mk domain RecordType.SOA := by
  rw [generate_a_rtype]
  intro h
  injection h with h1 h2
  exact RecordType.noConfusion h2

theorem zoneFold_preserve (domain : DName) (k : RrKey)
    (recs : List (DName × Ipv4)) :
    ∀ acc rc, zoneFold domain acc recs = some rc →
    (∀ p ∈ recs, k ≠ RrKey.mk p.1 RecordType.A) →
    k ≠ RrKey.mk domain RecordType.SOA →
    lookupA k rc = lookupA k acc := by
  induction recs with
  | nil =>
    intro acc rc h _ _
    simp only [zoneFold, Option.some.injEq] at h
    rw [h]
  | cons e rest ih =>
    intro acc rc h hA hS
    obtain ⟨n, addr⟩ := e
    cases hsoa : generate_soa domain with
    | none => simp [zoneFold, hsoa] at h
    | some soa =>
      simp only [zoneFold, hsoa] at h
      rw [ih _ _ h (fun p hp => hA p (List.mem_cons_of_mem _ hp)) hS]
      rw [lookupA_insertA_ne _ _ ?_, lookupA_insertA_ne _ _ hS]
      rw [generate_a_rtype]
      exact hA (n, addr) (List.mem_cons_self _ _)

theorem zoneFold_lookup_A (domain : DName) (n : DName) (ip : Ipv4)
    (recs : List (DName × Ipv4)) :
    ∀ acc rc, zoneFold domain acc recs = some rc →
    (recs.map Prod.fst).Nodup → (n, ip) ∈ recs →
    lookupA (RrKey.mk n RecordType.A) rc = some (generate_a n ip) := by
  induction recs with
  | nil =>
    intro acc rc _ _ hmem
    simp at hmem
  | cons e rest ih =>
    intro acc rc h hnd hmem
    obtain ⟨n', addr'⟩ := e
    cases hsoa : generate_soa domain with
    | none => simp [zoneFold, hsoa] at h
    | some soa =>
      simp only [zoneFold, hsoa] at h
      simp only [List.map_cons, List.nodup_cons] at hnd
      rcases List.mem_cons.mp hmem with heq | hmem'
      · obtain ⟨rfl, rfl⟩ : n = n' ∧ ip = addr' := by
          simpa [Prod.mk.injEq] using heq
        have hpres := zoneFold_preserve domain (RrKey.mk n RecordType.A)
          rest _ _ h ?_ ?_
        · rw [hpres, generate_a_rtype, lookupA_insertA_self]
        · intro p hp hkeq
          injection hkeq with h1 h2
          exact hnd.1 (h1 ▸ List.mem_map_of_mem Prod.fst hp)
        · intro hkeq
          injection hkeq with h1 h2
          exact RecordType.noConfusion h2
      · exact ih _ _ h hnd.2 hmem'

theorem zoneFold_soa_keep (domain : DName) (soa : RecordSet)
    (recs : List (DName × Ipv4)) (hsoa : generate_soa domain = some soa) :
    ∀ acc rc, zoneFold domain acc recs = some rc →
    lookupA (RrKey.mk domain RecordType.SOA) acc = some soa →
    lookupA (RrKey.mk domain RecordType.SOA) rc = some soa := by
  induction recs with
  | nil =>
    intro acc rc h hl
    simp only [zoneFold, Option.some.injEq] at h
    exact h ▸ hl
  | cons e rest ih =>
    intro acc rc h hl
    obtain ⟨n, addr⟩ := e
    simp only [zoneFold, hsoa] at h
    refine ih _ _ h ?_
    rw [lookupA_insertA_ne _ _ (rrkey_A_ne_SOA n domain).symm ..]
    exact lookupA_insertA_self _ _ _

theorem zoneRecords_soa (domain : DName) (e : DName × Ipv4)
    (rest : List (DName × Ipv4)) (rc : List (RrKey × RecordSet))
    (h : zoneRecords domain (e :: rest) = some rc) :
    ∃ soa, generate_soa domain = some soa ∧
      lookupA (RrKey.mk domain RecordType.SOA) rc = some soa := by
  obtain ⟨n, addr⟩ := e
  unfold zoneRecords at h
  cases hsoa : generate_soa domain with
  | none => simp [zoneFold, hsoa] at h
  | some soa =>
    refine ⟨soa, rfl, ?_⟩
    simp only [zoneFold, hsoa] at h
    refine zoneFold_soa_keep domain soa rest hsoa _ _ h ?_
    rw [lookupA_insertA_ne _ _ (rrkey_A_ne_SOA n domain).symm ..]
    exact lookupA_insertA_self _ _ _

theorem zoneFold_soaFilter_keep (domain : DName) (soa : RecordSet)
    (recs : List (DName × Ipv4)) (hsoa : generate_soa domain = some soa) :
    ∀ acc rc, zoneFold domain acc recs = some rc →
    soaFilter acc = [(RrKey.mk domain RecordType.SOA, soa)] →
    soaFilter rc = [(RrKey.mk domain RecordType.SOA, soa)] := by
  induction recs with
  | nil =>
    intro acc rc h hf
    simp only [zoneFold, Option.some.injEq] at h
    exact h ▸ hf
  | cons e rest ih =>
    intro acc rc h hf
    obtain ⟨n, addr⟩ := e
    simp only [zoneFold, hsoa] at h
    refine ih _ _ h ?_
    rw [soaFilter_insertA_notSOA _ _ _ (by rw [generate_a_rtype]; intro hx; exact RecordType.noConfusion hx)]
    exact soaFilter_insertA_soa_one _ _ _ _ rfl hf

theorem zoneRecords_soaFilter (domain : DName) (e : DName × Ipv4)
    (rest : List (DName × Ipv4)) (rc : List (RrKey × RecordSet))
    (h : zoneRecords domain (e :: rest) = some rc) :
    ∃ soa, generate_soa domain = some soa ∧
      soaFilter rc = [(RrKey.mk domain RecordType.SOA, soa)] := by
  obtain ⟨n, addr⟩ := e
  unfold zoneRecords at h
  cases hsoa : generate_soa domain with
  | none => simp [zoneFold, hsoa] at h
  | some soa =>
    refine ⟨soa, rfl, ?_⟩
    simp only [zoneFold, hsoa] at h
    refine zoneFold_soaFilter_keep domain soa rest hsoa _ _ h ?_
    rw [soaFilter_insertA_notSOA _ _ _ (by rw [generate_a_rtype]; intro hx; exact RecordType.noConfusion hx)]
    exact soaFilter_insertA_soa_empty _ _ _ rfl rfl

/-! ## Laws of the catalog construction -/

theorem catFold_preserve (d : DName)
    (rs : List (DName × List (DName × Ipv4))) :
    ∀ cat cat', catFold cat rs = some cat' → d ∉ rs.map Prod.fst →
    lookupA d cat' = lookupA d cat := by
  induction rs with
  | nil =>
    intro cat cat' h _
    simp only [catFold, Option.some.injEq] at h
    rw [h]
  | cons z rest ih =>
    intro cat cat' h hd
    obtain ⟨dz, es⟩ := z
    cases hzr : zoneRecords dz es with
    | none => simp [catFold, hzr] at h
    | some rc =>
      simp only [catFold, hzr] at h
      simp only [List.map_cons, List.mem_cons] at hd
      push_neg at hd
      rw [ih _ _ h hd.2]
      exact lookupA_insertA_ne _ _ hd.1

theorem catFold_mem (d : DName) (es : List (DName × Ipv4))
    (rs : List (DName × List (DName × Ipv4))) :
    ∀ cat cat', catFold cat rs = some cat' → (rs.map Prod.fst).Nodup →
    (d, es) ∈ rs →
    ∃ rc, zoneRecords d es = some rc ∧
      lookupA d cat' = some (Authority.Primary d rc) := by
  induction rs with
  | nil =>
    intro _ _ _ _ hmem
    simp at hmem
  | cons z rest ih =>
    intro cat cat' h hnd hmem
    obtain ⟨dz, esz⟩ := z
    cases hzr : zoneRecords dz esz with
    | none => simp [catFold, hzr] at h
    | some rc =>
      simp only [catFold, hzr] at h
      simp only [List.map_cons, List.nodup_cons] at hnd
      rcases List.mem_cons.mp hmem with heq | hmem'
      · obtain ⟨rfl, rfl⟩ : d = dz ∧ es = esz := by
          simpa [Prod.mk.injEq] using heq
        refine ⟨rc, hzr, ?_⟩
        rw [catFold_preserve d rest _ _ h hnd.1]
        exact lookupA_insertA_self _ _ _
      · exact ih _ _ h hnd.2 hmem'

theorem catFold_nodup (rs : List (DName × List (DName × Ipv4))) :
    ∀ cat cat', catFold cat rs = some cat' → (cat.map Prod.fst).Nodup →
    (cat'.map Prod.fst).Nodup := by
  induction rs with
  | nil =>
    intro cat cat' h hnd
    simp only [catFold, Option.some.injEq] at h
    exact h ▸ hnd
  | cons z rest ih =>
    intro cat cat' h hnd
    obtain ⟨dz, esz⟩ := z
    cases hzr : zoneRecords dz esz with
    | none => simp [catFold, hzr] at h
    | some rc =>
      simp only [catFold, hzr] at h
      exact ih _ _ h (nodup_keys_insertA _ _ _ hnd)

theorem genCat_split (records : List (DName × List (DName × Ipv4)))
    (fc : ForwardConfig) (cat : Catalog)
    (h : generate_catalog records fc = some cat) :
    ∃ z, catFold [] records = some z ∧
      cat = insertA [] (Authority.Forward fc) z := by
  unfold generate_catalog at h
  cases hz : catFold [] records with
  | none =>
    rw [hz] at h
    simp at h
  | some z =>
    rw [hz] at h
    exact ⟨z, rfl, (Option.some.inj h).symm⟩

theorem genCat_root (records : List (DName × List (DName × Ipv4)))
    (fc : ForwardConfig) (cat : Catalog)
    (h : generate_catalog records fc = some cat) :
    lookupA [] cat = some (Authority.Forward fc) := by
  obtain ⟨z, _, rfl⟩ := genCat_split records fc cat h
  exact lookupA_insertA_self _ _ _

theorem genCat_zone (records : List (DName × List (DName × Ipv4)))
    (fc : ForwardConfig) (cat : Catalog) (d : DName)
    (es : List (DName × Ipv4))
    (h : generate_catalog records fc = some cat)
    (hnd : (records.map Prod.fst).Nodup)
    (hmem : (d, es) ∈ records) (hd : d ≠ []) :
    ∃ rc, zoneRecords d es = some rc ∧
      lookupA d cat = some (Authority.Primary d rc) := by
  obtain ⟨z, hz, rfl⟩ := genCat_split records fc cat h
  obtain ⟨rc, hrc, hl⟩ := catFold_mem d es records _ _ hz hnd hmem
  exact ⟨rc, hrc, by rw [lookupA_insertA_ne _ _ hd, hl]⟩

theorem genCat_notMem (records : List (DName × List (DName × Ipv4)))
    (fc : ForwardConfig) (cat : Catalog) (d : DName)
    (h : generate_catalog records fc = some cat)
    (hd : d ∉ records.map Prod.fst) (hne : d ≠ ([] : DName)) :
    lookupA d cat = none := by
  obtain ⟨z, hz, rfl⟩ := genCat_split records fc cat h
  rw [lookupA_insertA_ne _ _ hne, catFold_preserve d records _ _ hz hd]
  rfl

theorem genCat_nodup (records : List (DName × List (DName × Ipv4)))
    (fc : ForwardConfig) (cat : Catalog)
    (h : generate_catalog records fc = some cat) :
    (cat.map Prod.fst).Nodup := by
  obtain ⟨z, hz, rfl⟩ := genCat_split records fc cat h
  exact nodup_keys_insertA _ _ _ (catFold_nodup records _ _ hz (by simp))

/-! ## Laws of the longest-suffix dispatch -/

theorem findA_of_no_suffix (cat : Catalog) (keys : List DName)
    (hnone : ∀ d, d ≠ ([] : DName) → d ∉ keys → lookupA d cat = none) :
    ∀ q, (∀ d ∈ keys, ¬ d <:+ q) → findA cat q = lookupA [] cat := by
  intro q
  induction q with
  | nil => intro _; rfl
  | cons a t ih =>
    intro hno
    have h1 : (a :: t) ∉ keys := fun hmem => hno _ hmem (List.suffix_refl _)
    have hl : lookupA (a :: t) cat = none :=
      hnone _ (List.cons_ne_nil a t) h1
    simp only [findA, hl]
    exact ih (fun d hd hsuf => hno d hd (hsuf.trans (List.suffix_cons a t)))

theorem findA_of_max_suffix (cat : Catalog) (keys : List DName)
    (hnone : ∀ d, d ≠ ([] : DName) → d ∉ keys → lookupA d cat = none)
    (hsome : ∀ d ∈ keys, (lookupA d cat).isSome = true)
    (hroot : ([] : DName) ∉ keys) :
    ∀ q m, m ∈ keys → m <:+ q →
    (∀ d ∈ keys, d <:+ q → d.length ≤ m.length) →
    findA cat q = lookupA m cat := by
  intro q
  induction q with
  | nil =>
    intro m hm hsuf _
    rw [List.suffix_nil.mp hsuf] at hm
    exact absurd hm hroot
  | cons a t ih =>
    intro m hm hsuf hmax
    by_cases heq : m = a :: t
    · subst heq
      cases hv : lookupA (a :: t) cat with
      | none =>
        have hs := hsome _ hm
        rw [hv] at hs
        simp at hs
      | some auth => simp only [findA, hv]
    · have hmt : m <:+ t := (List.suffix_cons_iff.mp hsuf).resolve_left heq
      have hq_notkey : (a :: t) ∉ keys := by
        intro hmem
        have hle := hmax _ hmem (List.suffix_refl _)
        have hge : m.length ≤ (a :: t).length := hsuf.length_le
        exact heq (hsuf.eq_of_length (Nat.le_antisymm hge hle))
      have hl : lookupA (a :: t) cat = none :=
        hnone _ (List.cons_ne_nil a t) hq_notkey
      simp only [findA, hl]
      exact ih m hm hmt
        (fun d hd hsufd => hmax d hd (hsufd.trans (List.suffix_cons a t)))

theorem findA_forward_swap (z : Catalog) (f1 f2 : ForwardConfig) :
    ∀ q, findA (insertA [] (Authority.Forward f1) z) q =
           findA (insertA [] (Authority.Forward f2) z) q ∨
         (findA (insertA [] (Authority.Forward f1) z) q =
            some (Authority.Forward f1) ∧
          findA (insertA [] (Authority.Forward f2) z) q =
            some (Authority.Forward f2)) := by
  intro q
  induction q with
  | nil =>
    right
    constructor
    · exact lookupA_insertA_self _ _ _
    · exact lookupA_insertA_self _ _ _
  | cons a t ih =>
    have hl1 : lookupA (a :: t) (insertA ([] : DName) (Authority.Forward f1) z) =
        lookupA (a :: t) z :=
      lookupA_insertA_ne _ _ (List.cons_ne_nil a t)
    have hl2 : lookupA (a :: t) (insertA ([] : DName) (Authority.Forward f2) z) =
        lookupA (a :: t) z :=
      lookupA_insertA_ne _ _ (List.cons_ne_nil a t)
    cases hv : lookupA (a :: t) z with
    | some auth =>
      left
      simp only [findA, hl1, hl2, hv]
    | none =>
      simp only [findA, hl1, hl2, hv]
      exact ih

theorem recordSetsAt_forward_swap (z : Catalog) (f1 f2 : ForwardConfig)
    (n : DName) :
    recordSetsAt (insertA [] (Authority.Forward f1) z) n =
    recordSetsAt (insertA [] (Authority.Forward f2) z) n := by
  rcases findA_forward_swap z f1 f2 n with h | ⟨h1, h2⟩
  · unfold recordSetsAt
    rw [h]
  · unfold recordSetsAt
    rw [h1, h2]

/-! ## The claims -/

/-- C1: whenever the zone synthesizer produces the apex SOA record set, that
set sits at the apex with ttl 30 and holds exactly one SOA record with
serial 1, refresh 60, retry 1, expire 120, minimum-TTL 30, and the
administrative contact name `administrator.<apex>`. -/
theorem claim_C1_soa_parameters (domain : DName) (rs : RecordSet)
    (h : generate_soa domain = some rs) :
    rs.name = domain ∧ rs.rtype = RecordType.SOA ∧ rs.ttl = 30 ∧
    rs.records = [{ name := domain, rtype := RecordType.SOA, ttl := 30,
                    rdata := some (RData.SOA
                      { mname := domain,
                        rname := "administrator" :: domain,
                        serial := 1, refresh := 60, retry := 1,
                        expire := 120, minimum := 30 }) }] := by
  rw [generate_soa_eq domain rs h]
  exact ⟨rfl, rfl, rfl, rfl⟩

/-- Witness for C1 at the apex `example.com`. -/
theorem claim_C1_soa_parameters_witness :
    ∃ rs, generate_soa ["example", "com"] = some rs ∧
      rs.ttl = 30 ∧ rs.rtype = RecordType.SOA := by
  cases h : generate_soa ["example", "com"] with
  | none => exact absurd h (by decide)
  | some rs =>
    obtain ⟨_, h2, h3, _⟩ := claim_C1_soa_parameters ["example", "com"] rs h
    exact ⟨rs, rfl, h3, h2⟩

/-- C2: each (name, address) entry of a zone yields exactly one A record
set at that name — ttl 30, a single record holding that one address — and
the zone's record map sends the key (name, A) to exactly that set, so an A
query for the name has exactly that one answer. -/
theorem claim_C2_single_a_record (nm : DName) (addr : Ipv4) (domain : DName)
    (recs : List (DName × Ipv4)) (rc : List (RrKey × RecordSet))
    (h : zoneRecords domain recs = some rc)
    (hnd : (recs.map Prod.fst).Nodup) (hmem : (nm, addr) ∈ recs) :
    generate_a nm addr =
      { name := nm, rtype := RecordType.A, ttl := 30,
        records := [{ name := nm, rtype := RecordType.A, ttl := 30,
                      rdata := some (RData.A addr) }] } ∧
    lookupA (RrKey.mk nm RecordType.A) rc = some (generate_a nm addr) :=
  ⟨generate_a_eq nm addr, zoneFold_lookup_A domain nm addr recs _ _ h hnd hmem⟩

/-- Witness for C2 on the zone `example.com` with entry `www.example.com`. -/
theorem claim_C2_single_a_record_witness :
    ∃ rc, zoneRecords ["example", "com"]
        [(["www", "example", "com"], ⟨93, 184, 216, 34⟩)] = some rc ∧
      lookupA (RrKey.mk ["www", "example", "com"] RecordType.A) rc =
        some (generate_a ["www", "example", "com"] ⟨93, 184, 216, 34⟩) := by
  cases h : zoneRecords ["example", "com"]
      [(["www", "example", "com"], ⟨93, 184, 216, 34⟩)] with
  | none => exact absurd h (by decide)
  | some rc =>
    exact ⟨rc, rfl,
      (claim_C2_single_a_record ["www", "example", "com"] ⟨93, 184, 216, 34⟩
        ["example", "com"] _ rc h (by decide) (by decide)).2⟩

/-- C3 counterexample: a zone configured with an empty entry mapping is
registered with NO SOA record set — the SOA insertion sits inside the
per-entry loop of `generate_catalog` — refuting "exactly one SOA RecordSet,
including a zone whose entry mapping is empty". -/
theorem claim_C3_counterexample :
    (generate_catalog [(["example", "com"], [])] { nameServers := [] }).map
      (fun cat => zoneSOACount cat ["example", "com"]) = some 0 ∧
    (generate_catalog [(["example", "com"], [])] { nameServers := [] }).map
      (fun cat => zoneSOACount cat ["example", "com"]) ≠ some 1 :=
  ⟨by decide, by decide⟩

/-- C3 amended: every configured zone with a NONEMPTY entry mapping
contains exactly one SOA record set, located at the apex; a zone with an
empty entry mapping contains none. -/
theorem claim_C3_soa_unique (records : List (DName × List (DName × Ipv4)))
    (fc : ForwardConfig) (cat : Catalog) (d : DName)
    (es : List (DName × Ipv4))
    (h : generate_catalog records fc = some cat)
    (hnd : (records.map Prod.fst).Nodup)
    (hmem : (d, es) ∈ records) (hd : d ≠ []) (hes : es ≠ []) :
    ∃ rc soa, lookupA d cat = some (Authority.Primary d rc) ∧
      generate_soa d = some soa ∧
      soaFilter rc = [(RrKey.mk d RecordType.SOA, soa)] := by
  obtain ⟨rc, hrc, hl⟩ := genCat_zone records fc cat d es h hnd hmem hd
  cases es with
  | nil => exact absurd rfl hes
  | cons e rest =>
    obtain ⟨soa, hsoa, hf⟩ := zoneRecords_soaFilter d e rest rc hrc
    exact ⟨rc, soa, hl, hsoa, hf⟩

/-- Witness for the amended C3 on the zone `example.com` with one entry. -/
theorem claim_C3_soa_unique_witness :
    ∃ cat rc soa,
      generate_catalog [(["example", "com"],
        [(["www", "example", "com"], ⟨93, 184, 216, 34⟩)])]
        { nameServers := [] } = some cat ∧
      lookupA ["example", "com"] cat =
        some (Authority.Primary ["example", "com"] rc) ∧
      soaFilter rc = [(RrKey.mk ["example", "com"] RecordType.SOA, soa)] := by
  cases h : generate_catalog [(["example", "com"],
      [(["www", "example", "com"], ⟨93, 184, 216, 34⟩)])]
      { nameServers := [] } with
  | none => exact absurd h (by decide)
  | some cat =>
    obtain ⟨rc, soa, h1, _, h3⟩ := claim_C3_soa_unique _ _ cat
      ["example", "com"] [(["www", "example", "com"], ⟨93, 184, 216, 34⟩)]
      h (by decide) (by decide) (by decide) (by decide)
    exact ⟨cat, rc, soa, rfl, h1, h3⟩

/-- C4 counterexample: a configuration document naming the apex
`example.com` twice does NOT make catalog construction fail — the
BTreeMap-backed `Records` silently collapses the duplicate and a catalog
IS produced (the code has no duplicate check and no CatalogError). -/
theorem claim_C4_counterexample :
    (generate_catalog
      (recordsFromPairs
        [(["example", "com"], [(["www", "example", "com"], ⟨93, 184, 216, 34⟩)]),
         (["example", "com"], [(["mail", "example", "com"], ⟨10, 0, 0, 1⟩)])])
      { nameServers := [] }).isSome = true := by decide

/-- C4 amended: a duplicated apex in the configuration document is
collapsed by the BTreeMap-backed `Records` — the later entry replaces the
earlier one — and catalog construction proceeds exactly as for the
deduplicated configuration; it does not fail. -/
theorem claim_C4_duplicate_collapse
    (ps : List (DName × List (DName × Ipv4))) (d : DName)
    (v w : List (DName × Ipv4)) (fc : ForwardConfig) :
    generate_catalog (recordsFromPairs (ps ++ [(d, v), (d, w)])) fc =
    generate_catalog (recordsFromPairs (ps ++ [(d, w)])) fc := by
  unfold recordsFromPairs
  rw [List.foldl_append, List.foldl_append]
  simp only [List.foldl_cons, List.foldl_nil]
  rw [insertA_insertA_same]

/-- C5 counterexample: in the execution where catalog construction fails
and every earlier step succeeds, both listener sockets have already been
bound — `main` binds TCP and UDP before calling `generate_catalog` —
refuting "aborts before any socket is bound". -/
theorem claim_C5_counterexample :
    Ev.bindTcp ∈ mainTrace true true true true false ∧
    Ev.bindUdp ∈ mainTrace true true true true false ∧
    Ev.buildCatalog ∉ mainTrace true true true true false := by decide

/-- C5 amended: when catalog construction fails, startup aborts before the
sockets are registered with the server and before serving begins — but the
TCP and UDP sockets have already been bound: in every execution the bind
events precede catalog construction. -/
theorem claim_C5_bind_before_catalog :
    (∀ o p t u : Bool,
      Ev.registerUdp ∉ mainTrace o p t u false ∧
      Ev.registerTcp ∉ mainTrace o p t u false ∧
      Ev.serve ∉ mainTrace o p t u false) ∧
    (∀ o p t u c : Bool, Ev.buildCatalog ∈ mainTrace o p t u c →
      Ev.bindTcp ∈ mainTrace o p t u c ∧
      Ev.bindUdp ∈ mainTrace o p t u c) := by decide

/-- Witness for the amended C5: the successful execution reaches catalog
construction with both sockets bound. -/
theorem claim_C5_bind_before_catalog_witness :
    Ev.buildCatalog ∈ mainTrace true true true true true ∧
    Ev.bindTcp ∈ mainTrace true true true true true :=
  ⟨by decide,
    ((claim_C5_bind_before_catalog.2 true true true true true)
      (by decide)).1⟩

/-- C6: a successfully built catalog has at most one authority per exact
domain key, and the authority at the root name — upserted after all
explicit zones — is the Forward authority carrying the configured
upstreams, for every input configuration. -/
theorem claim_C6_catalog_invariant
    (records : List (DName × List (DName × Ipv4)))
    (fc : ForwardConfig) (cat : Catalog)
    (h : generate_catalog records fc = some cat) :
    (cat.map Prod.fst).Nodup ∧
    lookupA [] cat = some (Authority.Forward fc) :=
  ⟨genCat_nodup records fc cat h, genCat_root records fc cat h⟩

/-- Witness for C6 on a one-zone configuration. -/
theorem claim_C6_catalog_invariant_witness :
    ∃ cat, generate_catalog [(["example", "com"],
        [(["www", "example", "com"], ⟨93, 184, 216, 34⟩)])]
        { nameServers := [⟨9, 9, 9, 9⟩] } = some cat ∧
      lookupA [] cat =
        some (Authority.Forward { nameServers := [⟨9, 9, 9, 9⟩] }) := by
  cases h : generate_catalog [(["example", "com"],
      [(["www", "example", "com"], ⟨93, 184, 216, 34⟩)])]
      { nameServers := [⟨9, 9, 9, 9⟩] } with
  | none => exact absurd h (by decide)
  | some cat => exact ⟨cat, rfl, (claim_C6_catalog_invariant _ _ cat h).2⟩

/-- C7: the dispatcher selects the authority whose registered key is the
longest suffix of the query name — the Primary authority of the longest
matching configured apex when one exists, otherwise the root Forward
authority; in particular a name covered by no configured zone is handled
by the forwarder.  Configured apexes are the keys of the `Records` map,
hence pairwise distinct, and the root itself is not a configured zone. -/
theorem claim_C7_longest_suffix_routing
    (records : List (DName × List (DName × Ipv4)))
    (fc : ForwardConfig) (cat : Catalog) (q : DName)
    (h : generate_catalog records fc = some cat)
    (hnd : (records.map Prod.fst).Nodup)
    (hroot : ([] : DName) ∉ records.map Prod.fst) :
    (∀ m ∈ records.map Prod.fst, m <:+ q →
      (∀ d ∈ records.map Prod.fst, d <:+ q → d.length ≤ m.length) →
      ∃ rc, findA cat q = some (Authority.Primary m rc)) ∧
    ((∀ d ∈ records.map Prod.fst, ¬ d <:+ q) →
      findA cat q = some (Authority.Forward fc)) := by
  have hnone : ∀ d, d ≠ ([] : DName) → d ∉ records.map Prod.fst →
      lookupA d cat = none :=
    fun d hdne hdnot => genCat_notMem records fc cat d h hdnot hdne
  constructor
  · intro m hm hsuf hmax
    obtain ⟨p, hp, hfst⟩ := List.mem_map.mp hm
    have hp2 : (m, p.2) ∈ records := by
      have hpe : p = (m, p.2) := by
        cases p with
        | mk a b => exact Prod.mk.injEq a b m b ▸ ⟨hfst, rfl⟩
      rwa [hpe] at hp
    have hmne : m ≠ [] := fun he => hroot (he ▸ hm)
    obtain ⟨rc, _, hl⟩ := genCat_zone records fc cat m p.2 h hnd hp2 hmne
    have hsome : ∀ d ∈ records.map Prod.fst, (lookupA d cat).isSome = true := by
      intro d hd
      obtain ⟨p', hp', hfst'⟩ := List.mem_map.mp hd
      have hp'2 : (d, p'.2) ∈ records := by
        have hpe : p' = (d, p'.2) := by
          cases p' with
          | mk a b => exact Prod.mk.injEq a b d b ▸ ⟨hfst', rfl⟩
        rwa [hpe] at hp'
      have hdne : d ≠ [] := fun he => hroot (he ▸ hd)
      obtain ⟨rc', _, hl'⟩ := genCat_zone records fc cat d p'.2 h hnd hp'2 hdne
      rw [hl']
      rfl
    refine ⟨rc, ?_⟩
    rw [findA_of_max_suffix cat (records.map Prod.fst) hnone hsome hroot
      q m hm hsuf hmax]
    exact hl
  · intro hno
    rw [findA_of_no_suffix cat (records.map Prod.fst) hnone q hno]
    exact genCat_root records fc cat h

/-- Witness for C7: with the zone `example.com` configured, a query for
`www.example.com` routes to the Primary zone and a query for `unknown.org`
routes to the forwarder. -/
theorem claim_C7_longest_suffix_routing_witness :
    ∃ cat, generate_catalog [(["example", "com"],
        [(["www", "example", "com"], ⟨93, 184, 216, 34⟩)])]
        { nameServers := [] } = some cat ∧
      (∃ rc, findA cat ["www", "example", "com"] =
        some (Authority.Primary ["example", "com"] rc)) ∧
      findA cat ["unknown", "org"] =
        some (Authority.Forward { nameServers := [] }) := by
  cases hc : generate_catalog [(["example", "com"],
      [(["www", "example", "com"], ⟨93, 184, 216, 34⟩)])]
      { nameServers := [] } with
  | none => exact absurd hc (by decide)
  | some cat =>
    refine ⟨cat, rfl, ?_, ?_⟩
    · exact (claim_C7_longest_suffix_routing _ _ cat
        ["www", "example", "com"] hc (by decide) (by decide)).1
        ["example", "com"] (by decide) (by decide) (by decide)
    · exact (claim_C7_longest_suffix_routing _ _ cat
        ["unknown", "org"] hc (by decide) (by decide)).2 (by decide)

/-- C8: catalog construction is deterministic in its record synthesis —
two successful builds from the same configuration (even if the externally
read forwarder configuration differs between the runs) hold identical
record sets, with identical types, values and TTLs, at every name. -/
theorem claim_C8_deterministic_synthesis
    (records : List (DName × List (DName × Ipv4)))
    (fc1 fc2 : ForwardConfig) (cat1 cat2 : Catalog)
    (h1 : generate_catalog records fc1 = some cat1)
    (h2 : generate_catalog records fc2 = some cat2) :
    ∀ n, recordSetsAt cat1 n = recordSetsAt cat2 n := by
  intro n
  obtain ⟨z1, hz1, rfl⟩ := genCat_split records fc1 cat1 h1
  obtain ⟨z2, hz2, rfl⟩ := genCat_split records fc2 cat2 h2
  obtain rfl : z1 = z2 := by
    rw [hz1] at hz2
    exact Option.some.inj hz2
  exact recordSetsAt_forward_swap z1 fc1 fc2 n

/-- Witness for C8: two builds of the same one-zone configuration agree at
`www.example.com`. -/
theorem claim_C8_deterministic_synthesis_witness :
    ∃ cat1 cat2,
      generate_catalog [(["example", "com"],
        [(["www", "example", "com"], ⟨93, 184, 216, 34⟩)])]
        { nameServers := [⟨8, 8, 8, 8⟩] } = some cat1 ∧
      generate_catalog [(["example", "com"],
        [(["www", "example", "com"], ⟨93, 184, 216, 34⟩)])]
        { nameServers := [⟨9, 9, 9, 9⟩] } = some cat2 ∧
      recordSetsAt cat1 ["www", "example", "com"] =
        recordSetsAt cat2 ["www", "example", "com"] := by
  cases h1 : generate_catalog [(["example", "com"],
      [(["www", "example", "com"], ⟨93, 184, 216, 34⟩)])]
      { nameServers := [⟨8, 8, 8, 8⟩] } with
  | none => exact absurd h1 (by decide)
  | some cat1 =>
    cases h2 : generate_catalog [(["example", "com"],
        [(["www", "example", "com"], ⟨93, 184, 216, 34⟩)])]
        { nameServers := [⟨9, 9, 9, 9⟩] } with
    | none => exact absurd h2 (by decide)
    | some cat2 =>
      exact ⟨cat1, cat2, rfl, rfl,
        claim_C8_deterministic_synthesis _ _ _ cat1 cat2 h1 h2
          ["www", "example", "com"]⟩

/-- C9: when an entry's name equals the zone apex, the zone's record map
holds both the A record set and the SOA record set at that name, under the
two distinct keys (apex, A) and (apex, SOA) — neither replaces the
other. -/
theorem claim_C9_apex_coexist (domain : DName) (ip : Ipv4)
    (recs : List (DName × Ipv4)) (rc : List (RrKey × RecordSet))
    (h : zoneRecords domain recs = some rc)
    (hnd : (recs.map Prod.fst).Nodup) (hmem : (domain, ip) ∈ recs) :
    ∃ soa, generate_soa domain = some soa ∧
      lookupA (RrKey.mk domain RecordType.SOA) rc = some soa ∧
      lookupA (RrKey.mk domain RecordType.A) rc =
        some (generate_a domain ip) ∧
      RrKey.mk domain RecordType.SOA ≠ RrKey.mk domain RecordType.A := by
  cases recs with
  | nil => simp at hmem
  | cons e rest =>
    obtain ⟨soa, hsoa, hl⟩ := zoneRecords_soa domain e rest rc h
    refine ⟨soa, hsoa, hl,
      zoneFold_lookup_A domain domain ip _ _ _ h hnd hmem, ?_⟩
    intro hk
    injection hk with h1 h2
    exact RecordType.noConfusion h2

/-- Witness for C9: the zone `example.com` with an A entry at the apex
itself. -/
theorem claim_C9_apex_coexist_witness :
    ∃ rc soa,
      zoneRecords ["example", "com"]
        [(["example", "com"], ⟨93, 184, 216, 34⟩)] = some rc ∧
      lookupA (RrKey.mk ["example", "com"] RecordType.SOA) rc = some soa ∧
      lookupA (RrKey.mk ["example", "com"] RecordType.A) rc =
        some (generate_a ["example", "com"] ⟨93, 184, 216, 34⟩) := by
  cases h : zoneRecords ["example", "com"]
      [(["example", "com"], ⟨93, 184, 216, 34⟩)] with
  | none => exact absurd h (by decide)
  | some rc =>
    obtain ⟨soa, _, h2, h3, _⟩ := claim_C9_apex_coexist ["example", "com"]
      ⟨93, 184, 216, 34⟩ _ rc h (by decide) (by decide)
    exact ⟨rc, soa, rfl, h2, h3⟩

/-- C10 counterexample: an apex name of encoded length 255 (labels of 63,
63, 63 and 61 bytes) is accepted by name parsing, yet prepending the
13-byte `administrator` label overflows the 255-byte limit, so the name
construction on main.rs line 92 fails and the `unwrap` in `generate_soa`
panics (modelled as `none`) — refuting "the unwrap is unreachable". -/
theorem claim_C10_counterexample :
    nameValid
      ["aaaaaaaaaaaaaaaaaaaaaaaaaaaaaaaaaaaaaaaaaaaaaaaaaaaaaaaaaaaaaaa",
       "bbbbbbbbbbbbbbbbbbbbbbbbbbbbbbbbbbbbbbbbbbbbbbbbbbbbbbbbbbbbbbb",
       "ccccccccccccccccccccccccccccccccccccccccccccccccccccccccccccccc",
       "ddddddddddddddddddddddddddddddddddddddddddddddddddddddddddddd"] = true ∧
    generate_soa
      ["aaaaaaaaaaaaaaaaaaaaaaaaaaaaaaaaaaaaaaaaaaaaaaaaaaaaaaaaaaaaaaa",
       "bbbbbbbbbbbbbbbbbbbbbbbbbbbbbbbbbbbbbbbbbbbbbbbbbbbbbbbbbbbbbbb",
       "ccccccccccccccccccccccccccccccccccccccccccccccccccccccccccccccc",
       "ddddddddddddddddddddddddddddddddddddddddddddddddddddddddddddd"] =
      none := by decide

/-- C10 amended: `generate_soa` cannot panic for apex names whose encoded
length is at most 241 bytes — then `administrator.<apex>` (14 bytes more)
stays within the 255-byte limit and the `Name::from_utf8` unwrap succeeds;
the panic is reachable only for valid apexes longer than that. -/
theorem claim_C10_no_panic_below_limit (domain : DName)
    (hv : nameValid domain = true) (hlen : encodedLen domain ≤ 241) :
    (generate_soa domain).isSome = true := by
  have hall : domain.all labelValid = true ∧ encodedLen domain ≤ 255 := by
    unfold nameValid at hv
    rw [Bool.and_eq_true, decide_eq_true_eq] at hv
    exact hv
  have hadmin : nameValid ("administrator" :: domain) = true := by
    unfold nameValid
    rw [Bool.and_eq_true, decide_eq_true_eq]
    refine ⟨?_, ?_⟩
    · rw [List.all_cons, Bool.and_eq_true]
      exact ⟨by decide, hall.1⟩
    · unfold encodedLen at hlen ⊢
      simp only [List.map_cons, List.sum_cons]
      have h13 : ("administrator" : String).length = 13 := by decide
      rw [h13]
      omega
  unfold generate_soa administrator fromLabels
  rw [hadmin]
  rfl

/-- Witness for the amended C10 at the apex `example.com`. -/
theorem claim_C10_no_panic_below_limit_witness :
    (generate_soa ["example", "com"]).isSome = true :=
  claim_C10_no_panic_below_limit ["example", "com"] (by decide) (by decide)

end ExampleNS
